import Mathlib

/-!
Shallow embedding of `timeutils/week.py`.

Calendar dates are modelled by their proleptic Gregorian ordinal
(Python's `date.toordinal()`: January 1 of year 1 is ordinal 1).
The external date collaborator (Python `datetime.date`) supplies
year/month/day construction, day arithmetic, the ISO weekday accessor
and the `.year` accessor; those are embedded below as arithmetic on
ordinals (`toOrdinal`, `isoweekday`, `yearOf`), and `yearOf` is proved
to be the genuine inverse of `jan1` on its range.  Python `%` and `//`
(floor semantics, positive divisors here) are `Int.emod` / `Int.ediv`.
-/

namespace Timeutils

/-- ISO weekday ordinal (Monday=1 .. Sunday=7) of a date ordinal;
date ordinal 1 (0001-01-01) is a Monday. -/
def isoweekday (d : Int) : Int := (d - 1) % 7 + 1

/-- Gregorian leap-year test (`datetime._is_leap`). -/
def isLeap (y : Int) : Bool := y % 4 == 0 && (y % 100 != 0 || y % 400 == 0)

/-- Number of days before January 1 of year `y` (`datetime._days_before_year`). -/
def daysBeforeYear (y : Int) : Int :=
  365 * (y - 1) + (y - 1) / 4 - (y - 1) / 100 + (y - 1) / 400

/-- Ordinal of January 1 of year `y`. -/
def jan1 (y : Int) : Int := daysBeforeYear y + 1

/-- Days before the first of month `m` in a non-leap year
(`datetime._DAYS_BEFORE_MONTH`). -/
def daysBeforeMonth (m : Int) : Int :=
  if m = 1 then 0 else if m = 2 then 31 else if m = 3 then 59
  else if m = 4 then 90 else if m = 5 then 120 else if m = 6 then 151
  else if m = 7 then 181 else if m = 8 then 212 else if m = 9 then 243
  else if m = 10 then 273 else if m = 11 then 304 else 334

/-- Date ordinal of year-month-day (`datetime._ymd2ord`). -/
def toOrdinal (y m d : Int) : Int :=
  daysBeforeYear y + daysBeforeMonth m + (if 2 < m ∧ isLeap y then 1 else 0) + d

/-- The calendar year containing date ordinal `d` (the `.year` accessor of
the date collaborator): a first-guess quotient corrected by at most one.
`yearOf_eq` proves it right on every year interval. -/
def yearGuess (d : Int) : Int := (400 * d) / 146097 + 1

def yearOf (d : Int) : Int :=
  if jan1 (yearGuess d + 1) ≤ d then yearGuess d + 1
  else if d < jan1 (yearGuess d) then yearGuess d - 1
  else yearGuess d

theorem daysBeforeYear_window (y : Int) :
    -699 ≤ 400 * daysBeforeYear y - 146097 * (y - 1) ∧
      400 * daysBeforeYear y - 146097 * (y - 1) ≤ 396 := by
  unfold daysBeforeYear
  omega

theorem yearGuess_fact (d : Int) :
    146097 * (yearGuess d - 1) ≤ 400 * d ∧ 400 * d < 146097 * yearGuess d := by
  unfold yearGuess
  omega

theorem yearOf_eq {y d : Int} (h1 : jan1 y ≤ d) (h2 : d < jan1 (y + 1)) :
    yearOf d = y := by
  have B1 := daysBeforeYear_window y
  have B2 := daysBeforeYear_window (y + 1)
  have B3 := daysBeforeYear_window (y + 2)
  have G := yearGuess_fact d
  unfold jan1 at h1 h2
  have hg : yearGuess d = y - 1 ∨ yearGuess d = y ∨ yearGuess d = y + 1 := by omega
  unfold yearOf jan1
  rcases hg with h | h | h
  · rw [h, show y - 1 + 1 = y from by ring]
    omega
  · rw [h]
    omega
  · rw [h, show y + 1 + 1 = y + 2 from by ring, show y + 1 - 1 = y from by ring]
    omega

/-!
`Weekday` values are their ordinals 1..7 (`IntEnum`).  `Weekday.__add__`
takes an arbitrary integer; `Weekday.__sub__` dispatches on the argument:
a `Weekday` argument gives the integer difference, any other integer is
negated and added.
-/

/-- Python `Weekday.__add__`: the weekday `n` positions later. -/
def wdAdd (w n : Int) : Int := (w + n - 1) % 7 + 1

/-- The `isinstance(other, Weekday)` branch of `Weekday.__sub__`:
difference of two weekdays, in 0..6. -/
def wdDiff (a b : Int) : Int := (a - b) % 7

/-- The integer branch of `Weekday.__sub__`: `self + (-other)`. -/
def wdSub (w n : Int) : Int := wdAdd w (-n)

/-- Python `Weekday.for_date`: weekday ordinal of a date. -/
def forDate (d : Int) : Int := isoweekday d

/-- Python `Weekday.first_of_year`: the first date in `year` with this weekday,
`day = 1 + (value - isoweekday(Jan 1)) % 7`, returned as `date(year, 1, day)`. -/
def firstOfYear (w y : Int) : Int :=
  toOrdinal y 1 (1 + (w - isoweekday (jan1 y)) % 7)

theorem jan1_mono {s t : Int} (h : s ≤ t) : jan1 s ≤ jan1 t := by
  unfold jan1 daysBeforeYear
  omega

theorem jan1_step (t : Int) : jan1 t < jan1 (t + 1) := by
  have B1 := daysBeforeYear_window t
  have B2 := daysBeforeYear_window (t + 1)
  unfold jan1
  omega

/-- Every date ordinal from year 1 onwards lies in the interval of a
well-defined calendar year. -/
theorem exists_year : ∀ (n : Nat) (d : Int), d - 1 = n → 1 ≤ d →
    ∃ y, 1 ≤ y ∧ jan1 y ≤ d ∧ d < jan1 (y + 1) := by
  intro n
  induction n with
  | zero =>
    intro d h1 _
    have hd : d = 1 := by omega
    subst hd
    exact ⟨1, le_refl 1, by decide, by decide⟩
  | succ m ih =>
    intro d h1 h2
    obtain ⟨y, hy1, hy2, hy3⟩ := ih (d - 1) (by omega) (by omega)
    by_cases hc : d < jan1 (y + 1)
    · exact ⟨y, hy1, by omega, hc⟩
    · have hd : d = jan1 (y + 1) := by omega
      have hs := jan1_step (y + 1)
      exact ⟨y + 1, by omega, by omega, by omega⟩

/-- Dates at or after January 1 of year `y` have year at least `y`. -/
theorem yearOf_ge {y d : Int} (hy : 1 ≤ y) (hd : jan1 y ≤ d) : y ≤ yearOf d := by
  have h1 : (1 : Int) ≤ d := by
    have := jan1_mono hy
    have hj : jan1 1 = 1 := by decide
    omega
  obtain ⟨z, hz1, hz2, hz3⟩ := exists_year (d - 1).toNat d (by omega) h1
  rw [yearOf_eq hz2 hz3]
  by_contra hlt
  have : z + 1 ≤ y := by omega
  have := jan1_mono this
  omega

/-- A `Week` value: one field, the start date. -/
structure Week where
  start : Int
deriving DecidableEq

/-- Python `Week.end`: `start + SEVEN_DAYS`  (`end` is a Lean keyword). -/
def Week.wend (w : Week) : Int := w.start + 7

/-- Python `Week.first_weekday`: `Weekday.for_date(start)`. -/
def Week.firstWeekday (w : Week) : Int := forDate w.start

/-- Python `Week.year`: the calendar year of `start + 3 days`. -/
def Week.year (w : Week) : Int := yearOf (w.start + 3)

/-- Python `Week.number`: `1 + (my_midday - first_midday) // 7`. -/
def Week.number (w : Week) : Int :=
  1 + (w.start + 3 - firstOfYear (wdAdd w.firstWeekday 3) w.year) / 7

/-- Python `Week.with_date`: snap a date back to the start of its week. -/
def Week.withDate (d fw : Int) : Week :=
  ⟨d - (isoweekday d - fw) % 7⟩

/-- Python `Week.with_number`: week `number` of `year`; the first occurrence of the
midday weekday, minus 3 days, plus `7 * (number - 1)` days. -/
def Week.withNumber (y n fw : Int) : Week :=
  ⟨firstOfYear (wdAdd fw 3) y + (7 * (n - 1) - 3)⟩

/-- Python `Week.__len__`: `len(Weekday)`, i.e. 7. -/
def Week.len (_ : Week) : Int := 7

/-- Python `Week.__contains__`: `start <= date_ < end`. -/
def Week.containsDate (w : Week) (d : Int) : Prop := w.start ≤ d ∧ d < w.wend

instance (w : Week) (d : Int) : Decidable (w.containsDate d) :=
  inferInstanceAs (Decidable (_ ∧ _))

/-- Python `Week.__iter__`: the dates `start + offset` for `offset` in `range(7)`. -/
def Week.dates (w : Week) : List Int :=
  (List.range 7).map fun offset => w.start + offset

/-- Python `Week.weekday_date`: `start + (weekday - first_weekday) days`, where the
subtraction is the weekday-weekday branch of `Weekday.__sub__`. -/
def Week.weekdayDate (w : Week) (wd : Int) : Int :=
  w.start + wdDiff wd w.firstWeekday

/-- Python `f-string` `02` padding of an integer. -/
def pad2 (n : Int) : String :=
  if 0 ≤ n ∧ n ≤ 9 then "0" ++ toString n else toString n

/-- Python `Week.__str__`: `f-string` with year, `-W` and zero-padded number. -/
def Week.str (w : Week) : String :=
  toString w.year ++ "-W" ++ pad2 w.number

/-- The argument of `Week.__add__`: a plain integer, or a duration value
(with a whole number of days, the only durations the spec admits). -/
inductive AddArg where
  | int (n : Int)
  | dur (days : Int)
deriving DecidableEq

/-- Python unary negation on the argument (`-other`). -/
def AddArg.neg : AddArg → AddArg
  | .int n => .int (-n)
  | .dur days => .dur (-days)

/-- Python `Week.__add__`: an integer is converted to `timedelta(days=7*other)`;
then the duration must be a multiple of 7 days, else
`ValueError('must add only whole weeks')`. -/
def Week.add (w : Week) (a : AddArg) : Except String Week :=
  let days : Int := match a with
    | .int n => 7 * n
    | .dur days => days
  if days % 7 ≠ 0 then .error ("must add only whole weeks")
  else .ok ⟨w.start + days⟩

/-- Python `Week.__sub__`: `self + (-other)`. -/
def Week.sub (w : Week) (a : AddArg) : Except String Week :=
  w.add a.neg

/-- A Python value a `Week` may be compared against: another `Week`,
or any non-`Week` value (abstracted to a tag). -/
inductive PyVal where
  | week (w : Week)
  | other (tag : String)
deriving DecidableEq

/-- Python `Week.__gt__`: raises `NotImplementedError` unless the other value is a
`Week`; otherwise compares start dates. -/
def Week.gtVal (a : Week) (v : PyVal) : Except String Bool :=
  match v with
  | .week b => .ok (decide (b.start < a.start))
  | .other _ => .error ("NotImplementedError")

/-- Python `Week.__eq__`: `isinstance(other, Week) and start == other.start`. -/
def Week.eqVal (a : Week) (v : PyVal) : Bool :=
  match v with
  | .week b => decide (a.start = b.start)
  | .other _ => false

/-- Python `Week.__hash__` hashes the pair `(type(self), self.start)`; the pair is
what determines the hash. -/
def Week.hashKey (a : Week) : String × Int := ("Week", a.start)

/-!
`weeks_of_year` is a while loop: starting from week 1 of the year, yield
and step one week forward while `.year` does not exceed the given year.
It is embedded with a fuel argument large enough to never run out
(`weeksOfYear_eq` below proves the defining loop equation, so the fuel is
invisible: the function satisfies exactly the generator's recurrence).
-/

def weeksGo (y : Int) : Nat → Week → List Week
  | 0, _ => []
  | fuel + 1, w => if w.year ≤ y then w :: weeksGo y fuel ⟨w.start + 7⟩ else []

def weeksFuel (y : Int) (w : Week) : Nat := (146097 * y + 150000 - 400 * w.start).toNat

/-- The loop of `weeks_of_year` from an arbitrary current week. -/
def weeksFrom (y : Int) (w : Week) : List Week :=
  weeksGo y (weeksFuel y w) w

/-- Python `weeks_of_year(year, first_weekday)`. -/
def weeksOfYear (y fw : Int) : List Week :=
  weeksFrom y (Week.withNumber y 1 fw)

/-- The loop guard bounds the current start date: a week whose midpoint year
is at most `y` starts no later than (roughly) the end of year `y`. -/
theorem year_le_bound {w : Week} {y : Int} (h : w.year ≤ y) :
    400 * w.start ≤ 146097 * y + 144896 := by
  unfold Week.year yearOf yearGuess jan1 daysBeforeYear at h
  omega

/-- Any two sufficient fuels give the same loop result. -/
theorem weeksGo_fuel {y : Int} :
    ∀ (f1 f2 : Nat) (w : Week), weeksFuel y w ≤ 2800 * f1 →
      weeksFuel y w ≤ 2800 * f2 → weeksGo y f1 w = weeksGo y f2 w := by
  intro f1
  induction f1 with
  | zero =>
    intro f2 w h1 _
    have hb : ¬ w.year ≤ y := by
      intro hg
      have := year_le_bound hg
      unfold weeksFuel at h1
      omega
    cases f2 with
    | zero => rfl
    | succ g => simp only [weeksGo, if_neg hb]
  | succ f ih =>
    intro f2 w h1 h2
    cases f2 with
    | zero =>
      have hb : ¬ w.year ≤ y := by
        intro hg
        have := year_le_bound hg
        unfold weeksFuel at h2
        omega
      simp only [weeksGo, if_neg hb]
    | succ g =>
      simp only [weeksGo]
      by_cases hb : w.year ≤ y
      · rw [if_pos hb, if_pos hb]
        have hbd := year_le_bound hb
        have hstep : weeksFuel y ⟨w.start + 7⟩ ≤ 2800 * f ∧
            weeksFuel y ⟨w.start + 7⟩ ≤ 2800 * g := by
          unfold weeksFuel at h1 h2 ⊢
          simp only at h1 h2 ⊢
          omega
        rw [ih g ⟨w.start + 7⟩ hstep.1 hstep.2]
      · rw [if_neg hb, if_neg hb]

/-- When the guard already fails, the loop yields nothing, whatever the fuel. -/
theorem weeksGo_nil {y : Int} {w : Week} (hb : ¬ w.year ≤ y) (f : Nat) :
    weeksGo y f w = [] := by
  cases f with
  | zero => rfl
  | succ g => simp only [weeksGo, if_neg hb]

/-- The defining recurrence of the `weeks_of_year` loop: `weeksFrom` is
exactly the `while w.year <= year` generator. -/
theorem weeksFrom_eq (y : Int) (w : Week) :
    weeksFrom y w = if w.year ≤ y then w :: weeksFrom y ⟨w.start + 7⟩ else [] := by
  unfold weeksFrom
  by_cases hb : w.year ≤ y
  · have hbd := year_le_bound hb
    have h0 : weeksFuel y w = (weeksFuel y ⟨w.start + 7⟩) + 2800 := by
      unfold weeksFuel
      simp only
      omega
    rw [h0]
    have h1 : weeksGo y (weeksFuel y ⟨w.start + 7⟩ + 2800) w =
        weeksGo y (weeksFuel y ⟨w.start + 7⟩ + 1) w := by
      apply weeksGo_fuel <;> · unfold weeksFuel at *; simp only at *; omega
    rw [h1]
    simp only [weeksGo, if_pos hb]
  · rw [weeksGo_nil hb, if_neg hb]

/-- Every yielded week sits `7 i` days after the loop entry and satisfies
the loop guard. -/
theorem weeksGo_elems {y : Int} :
    ∀ (f : Nat) (w : Week) (i : Nat), i < (weeksGo y f w).length →
      (weeksGo y f w).getD i ⟨0⟩ = ⟨w.start + 7 * i⟩ ∧
        (Week.mk (w.start + 7 * i)).year ≤ y := by
  intro f
  induction f with
  | zero => intro w i h; simp [weeksGo] at h
  | succ f ih =>
    intro w i h
    simp only [weeksGo] at h ⊢
    by_cases hb : w.year ≤ y
    · rw [if_pos hb] at h ⊢
      cases i with
      | zero =>
        constructor
        · simp
        · simpa [show w.start + 7 * (0 : Nat) = w.start by omega] using hb
      | succ j =>
        simp only [List.length_cons, Nat.succ_lt_succ_iff] at h
        have := ih ⟨w.start + 7⟩ j h
        simp only at this
        constructor
        · simpa [show w.start + 7 + 7 * j = w.start + 7 * (j + 1 : Nat) by push_cast; ring]
            using this.1
        · simpa [show w.start + 7 + 7 * j = w.start + 7 * (j + 1 : Nat) by push_cast; ring]
            using this.2
    · rw [if_neg hb] at h
      simp at h

/-- With sufficient fuel, the first week after the yielded ones violates the
guard: the loop stops exactly when `.year` exceeds `y`. -/
theorem weeksGo_stop {y : Int} :
    ∀ (f : Nat) (w : Week), weeksFuel y w ≤ 2800 * f →
      y < (Week.mk (w.start + 7 * (weeksGo y f w).length)).year := by
  intro f
  induction f with
  | zero =>
    intro w h1
    have hb : ¬ w.year ≤ y := by
      intro hg
      have := year_le_bound hg
      unfold weeksFuel at h1
      omega
    simp only [weeksGo, List.length_nil, Nat.cast_zero, mul_zero, add_zero]
    exact lt_of_not_le fun hle => hb (by simpa [Week.year] using hle)
  | succ f ih =>
    intro w h1
    simp only [weeksGo]
    by_cases hb : w.year ≤ y
    · rw [if_pos hb]
      have hbd := year_le_bound hb
      have hstep : weeksFuel y ⟨w.start + 7⟩ ≤ 2800 * f := by
        unfold weeksFuel at h1 ⊢
        simp only at h1 ⊢
        omega
      have := ih ⟨w.start + 7⟩ hstep
      simp only at this
      simpa [List.length_cons, show ∀ k : Nat,
        w.start + 7 + 7 * (k : Int) = w.start + 7 * ((k + 1 : Nat) : Int)
          from fun k => by push_cast; ring] using this
    · rw [if_neg hb]
      simp only [List.length_nil, Nat.cast_zero, mul_zero, add_zero]
      exact lt_of_not_le fun hle => hb (by simpa [Week.year] using hle)

theorem toOrdinal_jan (y d : Int) : toOrdinal y 1 d = daysBeforeYear y + d := by
  unfold toOrdinal daysBeforeMonth
  norm_num

/-- The first occurrence of weekday `v` in a year falls on January 1..7 and
really has weekday `v`. -/
theorem firstOfYear_spec {v : Int} (y : Int) (h1 : 1 ≤ v) (h2 : v ≤ 7) :
    jan1 y ≤ firstOfYear v y ∧ firstOfYear v y ≤ jan1 y + 6 ∧
      isoweekday (firstOfYear v y) = v := by
  unfold firstOfYear
  rw [toOrdinal_jan]
  unfold isoweekday jan1
  omega

/-- The start of `with_number(year, n, first_weekday)` falls on the requested
first weekday, whatever `year` and `n`. -/
theorem withNumber_fw {fw : Int} (y n : Int) (h1 : 1 ≤ fw) (h2 : fw ≤ 7) :
    (Week.withNumber y n fw).firstWeekday = fw := by
  have hv1 : 1 ≤ wdAdd fw 3 := by unfold wdAdd; omega
  have hv2 : wdAdd fw 3 ≤ 7 := by unfold wdAdd; omega
  have hf := (firstOfYear_spec y hv1 hv2).2.2
  unfold Week.firstWeekday Week.withNumber forDate isoweekday at *
  unfold wdAdd at *
  simp only at *
  omega

/-- Starts of constructed weeks: `with_number(y, n, fw)` starts `7 (n-1)`
days after `with_number(y, 1, fw)`. -/
theorem withNumber_start_shift (y n fw : Int) :
    (Week.withNumber y n fw).start = (Week.withNumber y 1 fw).start + 7 * (n - 1) := by
  unfold Week.withNumber
  simp only
  ring

/-- If the midday of `with_number(y, n, fw)` has not run past year `y`
(and `n ≥ 1`), its `.year` is exactly `y`. -/
theorem withNumber_year_eq {y n fw : Int} (hy : 1 ≤ y)
    (hn : 1 ≤ n) (hg : (Week.withNumber y n fw).year ≤ y) :
    (Week.withNumber y n fw).year = y := by
  refine le_antisymm hg ?_
  unfold Week.year
  apply yearOf_ge hy
  have hv1 : 1 ≤ wdAdd fw 3 := by unfold wdAdd; omega
  have hv2 : wdAdd fw 3 ≤ 7 := by unfold wdAdd; omega
  have hf := (firstOfYear_spec y hv1 hv2).1
  unfold Week.withNumber
  simp only
  omega

/-- If the year of `with_number(y, n, fw)` computes to `y`, its `.number`
round-trips to `n`. -/
theorem withNumber_number_eq {y n fw : Int} (hfw1 : 1 ≤ fw) (hfw7 : fw ≤ 7)
    (hyr : (Week.withNumber y n fw).year = y) :
    (Week.withNumber y n fw).number = n := by
  unfold Week.number
  rw [withNumber_fw y n hfw1 hfw7, hyr]
  unfold Week.withNumber
  simp only
  omega

/-- Every position of `weeks_of_year` satisfies the loop guard. -/
theorem weeksOfYear_guard {y fw : Int} {i : Nat} (h : i < (weeksOfYear y fw).length) :
    (Week.mk ((Week.withNumber y 1 fw).start + 7 * i)).year ≤ y :=
  (weeksGo_elems (weeksFuel y (Week.withNumber y 1 fw)) (Week.withNumber y 1 fw) i h).2

/-- Every position of `weeks_of_year` holds the week `7 i` days after week 1. -/
theorem weeksOfYear_elem {y fw : Int} {i : Nat} (h : i < (weeksOfYear y fw).length) :
    (weeksOfYear y fw).getD i ⟨0⟩ = ⟨(Week.withNumber y 1 fw).start + 7 * i⟩ :=
  (weeksGo_elems (weeksFuel y (Week.withNumber y 1 fw)) (Week.withNumber y 1 fw) i h).1

/-- Claim C2: for every year (from year 1 on), every first-weekday convention and
every week number `n` in the year's valid range `1 .. length (weeks_of_year)`,
the constructed week's derived `number` equals `n`. -/
theorem claim_C2 (y n fw : Int) (hy : 1 ≤ y) (hfw1 : 1 ≤ fw) (hfw7 : fw ≤ 7)
    (hn1 : 1 ≤ n) (hn2 : n ≤ ((weeksOfYear y fw).length : Int)) :
    (Week.withNumber y n fw).number = n := by
  apply withNumber_number_eq hfw1 hfw7
  apply withNumber_year_eq hy hn1
  have hi : (n - 1).toNat < (weeksOfYear y fw).length := by omega
  have hg := weeksOfYear_guard hi
  have hcast : (((n - 1).toNat : Nat) : Int) = n - 1 := by omega
  rw [hcast] at hg
  have hs := withNumber_start_shift y n fw
  unfold Week.year at hg ⊢
  simp only at hg
  rw [hs]
  exact hg

/-- Witness for C2: week 30 of 2021 under the Monday convention. -/
theorem claim_C2_witness : (Week.withNumber 2021 30 1).number = 30 :=
  claim_C2 2021 30 1 (by decide) (by decide) (by decide) (by decide) (by decide)

/-- Claim C3: `weeks_of_year(y, fw)` is a finite list that starts at
`Week.with_number(y, 1, fw)`, holds the week `7 i` days later at position `i`
(advancing by exactly 7 days per step), every yielded week has `.year` at
most `y`, and the first week after the list is the first whose `.year`
exceeds `y` (the loop stops exactly there); concretely, 2021 yields 52 weeks
from start 2021-01-04 (`2021-W01`) to start 2021-12-27 (`2021-W52`), and
2020 yields 53 weeks from start 2019-12-30 to start 2020-12-28. -/
theorem claim_C3 (y fw : Int) (i : Nat) :
    (0 < (weeksOfYear y fw).length →
      (weeksOfYear y fw).head? = some (Week.withNumber y 1 fw)) ∧
    (i < (weeksOfYear y fw).length →
      (weeksOfYear y fw).getD i ⟨0⟩ =
          ⟨(Week.withNumber y 1 fw).start + 7 * i⟩ ∧
        ((weeksOfYear y fw).getD i ⟨0⟩).year ≤ y) ∧
    y < (Week.mk ((Week.withNumber y 1 fw).start +
        7 * (weeksOfYear y fw).length)).year ∧
    (weeksOfYear 2021 1).length = 52 ∧
    (weeksOfYear 2021 1).head? = some ⟨toOrdinal 2021 1 4⟩ ∧
    ((weeksOfYear 2021 1).head?.map Week.str) = some ("2021-W01") ∧
    (weeksOfYear 2021 1).getLast? = some ⟨toOrdinal 2021 12 27⟩ ∧
    ((weeksOfYear 2021 1).getLast?.map Week.str) = some ("2021-W52") ∧
    (weeksOfYear 2020 1).length = 53 ∧
    (weeksOfYear 2020 1).head? = some ⟨toOrdinal 2019 12 30⟩ ∧
    (weeksOfYear 2020 1).getLast? = some ⟨toOrdinal 2020 12 28⟩ := by
  refine ⟨?_, ?_, ?_, by decide, by decide, by decide, by decide, by decide,
    by decide, by decide, by decide⟩
  · intro hlen
    have he := weeksOfYear_elem (i := 0) hlen
    have hh : (weeksOfYear y fw).head? = some ((weeksOfYear y fw).getD 0 ⟨0⟩) := by
      cases hw : weeksOfYear y fw with
      | nil => rw [hw] at hlen; simp at hlen
      | cons a l => simp [hw]
    rw [hh, he]
    have : (Week.withNumber y 1 fw).start + 7 * ((0 : Nat) : Int) =
        (Week.withNumber y 1 fw).start := by push_cast; ring
    rw [this]
  · intro hlen
    refine ⟨weeksOfYear_elem hlen, ?_⟩
    rw [weeksOfYear_elem hlen]
    exact weeksOfYear_guard hlen
  · exact weeksGo_stop (weeksFuel y (Week.withNumber y 1 fw))
      (Week.withNumber y 1 fw) (by omega)

/-- Witness for C3: the general clauses instantiated for 2021, Monday,
position 40. -/
theorem claim_C3_witness :
    (weeksOfYear 2021 1).head? = some (Week.withNumber 2021 1 1) ∧
      (weeksOfYear 2021 1).getD 40 ⟨0⟩ =
        ⟨(Week.withNumber 2021 1 1).start + 7 * 40⟩ := by
  have h := claim_C3 2021 1 40
  exact ⟨h.1 (by decide), (h.2.1 (by decide)).1⟩

/-- Claim C1: week addition never fails on a plain integer `n` (it means `7 n`
days), fails with `ValueError('must add only whole weeks')` exactly when a
duration is not a whole multiple of 7 days (the only failure in the
library), and subtraction is addition of the negation. -/
theorem claim_C1 (w : Week) (n d : Int) :
    Week.add w (.int n) = .ok ⟨w.start + 7 * n⟩ ∧
    Week.add w (.dur d) =
      (if d % 7 = 0 then .ok ⟨w.start + d⟩ else .error ("must add only whole weeks")) ∧
    (Week.add w (.dur d) = .error ("must add only whole weeks") ↔ ¬ d % 7 = 0) ∧
    Week.sub w (.int n) = Week.add w (.int (-n)) ∧
    Week.sub w (.dur d) = Week.add w (.dur (-d)) := by
  refine ⟨?_, ?_, ?_, rfl, rfl⟩
  · unfold Week.add
    simp only
    rw [if_neg (by omega)]
  · unfold Week.add
    simp only
    by_cases hc : d % 7 = 0
    · rw [if_neg (by omega), if_pos hc]
    · rw [if_pos (by omega), if_neg hc]
  · unfold Week.add
    simp only
    by_cases hc : d % 7 = 0
    · rw [if_neg (by omega)]
      simp [hc]
    · rw [if_pos (by omega)]
      simp [hc]

/-- Claim C4: weekday addition is total over all integers, always lands in 1..7,
equals the non-negative-remainder formula, and subtraction is addition of
the negation. -/
theorem claim_C4 (w n : Int) :
    wdAdd w n = (w + n - 1) % 7 + 1 ∧ 0 ≤ (w + n - 1) % 7 ∧
    1 ≤ wdAdd w n ∧ wdAdd w n ≤ 7 ∧
    wdSub w n = wdAdd w (-n) ∧ 1 ≤ wdSub w n ∧ wdSub w n ≤ 7 := by
  unfold wdSub wdAdd
  omega

/-- Claim C5: the first occurrence of weekday `w` in year `y` lies between
January 1 and January 7 of `y`, and its weekday really is `w`. -/
theorem claim_C5 (w y : Int) (h1 : 1 ≤ w) (h2 : w ≤ 7) :
    toOrdinal y 1 1 ≤ firstOfYear w y ∧ firstOfYear w y ≤ toOrdinal y 1 7 ∧
      forDate (firstOfYear w y) = w := by
  have hs := firstOfYear_spec y h1 h2
  rw [toOrdinal_jan, toOrdinal_jan]
  unfold forDate
  unfold jan1 at hs
  exact ⟨by omega, by omega, hs.2.2⟩

/-- Witness for C5: the first Thursday of 2021 (January 7). -/
theorem claim_C5_witness :
    toOrdinal 2021 1 1 ≤ firstOfYear 4 2021 ∧
      firstOfYear 4 2021 ≤ toOrdinal 2021 1 7 ∧ forDate (firstOfYear 4 2021) = 4 :=
  claim_C5 4 2021 (by decide) (by decide)

/-- Claim C6: a date is in a week iff `start ≤ d < end` with `end = start + 7`,
the start is contained and the end is not, and iteration yields exactly the
7 dates `start .. start+6` in ascending order without repetition. -/
theorem claim_C6 (w : Week) (d : Int) :
    (w.containsDate d ↔ w.start ≤ d ∧ d < w.wend) ∧
    w.wend = w.start + 7 ∧
    w.containsDate w.start ∧ ¬ w.containsDate w.wend ∧
    (w.containsDate d ↔ d ∈ w.dates) ∧
    w.dates = [w.start, w.start + 1, w.start + 2, w.start + 3, w.start + 4,
      w.start + 5, w.start + 6] ∧
    w.dates.length = 7 ∧ w.dates.Nodup ∧ List.Chain' (· < ·) w.dates := by
  have hd : w.dates = [w.start, w.start + 1, w.start + 2, w.start + 3,
      w.start + 4, w.start + 5, w.start + 6] := by
    unfold Week.dates
    simp [List.range_succ]
  refine ⟨Iff.rfl, rfl, ?_, ?_, ?_, hd, ?_, ?_, ?_⟩
  · unfold Week.containsDate Week.wend
    omega
  · unfold Week.containsDate Week.wend
    omega
  · rw [hd]
    unfold Week.containsDate Week.wend
    simp only [List.mem_cons, List.not_mem_nil, or_false]
    omega
  · rw [hd]
    rfl
  · rw [hd]
    simp only [List.nodup_cons, List.mem_cons, List.not_mem_nil, List.nodup_nil,
      or_false, and_true, not_or]
    norm_num
  · rw [hd]
    simp only [List.chain'_cons, List.chain'_singleton, and_true]
    omega

/-- Claim C7: `with_date` snaps back by the weekday difference (by 0 when already
on the first weekday), yielding the most recent date on weekday `fw` not
after `d`; it is idempotent, and `with_date(2021-01-01)` starts 2020-12-28. -/
theorem claim_C7 (d fw : Int) (h1 : 1 ≤ fw) (h2 : fw ≤ 7) :
    (Week.withDate d fw).start = d - wdDiff (forDate d) fw ∧
    (forDate d = fw → (Week.withDate d fw).start = d) ∧
    forDate (Week.withDate d fw).start = fw ∧
    (Week.withDate d fw).start ≤ d ∧ d - (Week.withDate d fw).start < 7 ∧
    (∀ s : Int, forDate s = fw → s ≤ d → s ≤ (Week.withDate d fw).start) ∧
    Week.withDate (Week.withDate d fw).start fw = Week.withDate d fw ∧
    Week.withDate (toOrdinal 2021 1 1) 1 = ⟨toOrdinal 2020 12 28⟩ := by
  refine ⟨rfl, ?_, ?_, ?_, ?_, ?_, ?_, by decide⟩
  · intro h
    simp only [Week.withDate, wdDiff, forDate, isoweekday] at h ⊢
    omega
  · simp only [Week.withDate, wdDiff, forDate, isoweekday]
    omega
  · simp only [Week.withDate, wdDiff, forDate, isoweekday]
    omega
  · simp only [Week.withDate, wdDiff, forDate, isoweekday]
    omega
  · intro s hs hsd
    simp only [Week.withDate, wdDiff, forDate, isoweekday] at hs ⊢
    omega
  · simp only [Week.withDate, wdDiff, forDate, isoweekday, Week.mk.injEq]
    omega

/-- Witness for C7: snapping 2021-01-01 back to Monday. -/
theorem claim_C7_witness :
    (Week.withDate (toOrdinal 2021 1 1) 1).start =
        toOrdinal 2021 1 1 - wdDiff (forDate (toOrdinal 2021 1 1)) 1 ∧
      forDate (Week.withDate (toOrdinal 2021 1 1) 1).start = 1 :=
  ⟨(claim_C7 (toOrdinal 2021 1 1) 1 (by decide) (by decide)).1,
    (claim_C7 (toOrdinal 2021 1 1) 1 (by decide) (by decide)).2.2.1⟩

/-- Claim C8: ordering a `Week` against a `Week` compares start dates; ordering it
against any non-`Week` value raises (`NotImplementedError`) instead of
returning a boolean. -/
theorem claim_C8 (a b : Week) (t : String) :
    Week.gtVal a (.week b) = .ok (decide (b.start < a.start)) ∧
    (Week.gtVal a (.week b) = .ok true ↔ b.start < a.start) ∧
    Week.gtVal a (.other t) = .error ("NotImplementedError") ∧
    (∀ r : Bool, Week.gtVal a (.other t) ≠ .ok r) := by
  refine ⟨rfl, ?_, rfl, ?_⟩
  · unfold Week.gtVal
    simp
  · intro r
    unfold Week.gtVal
    simp

/-- Claim C9: for every year and every integer week number, including out-of-range
ones (accepted without error), the week built by `with_number` starts on the
requested first weekday. -/
theorem claim_C9 (y n fw : Int) (h1 : 1 ≤ fw) (h2 : fw ≤ 7) :
    (Week.withNumber y n fw).firstWeekday = fw :=
  withNumber_fw y n h1 h2

/-- Witness for C9: the out-of-range week number 60 of 2021, Sunday first. -/
theorem claim_C9_witness : (Week.withNumber 2021 60 7).firstWeekday = 7 :=
  claim_C9 2021 60 7 (by decide) (by decide)

/-- Claim C10: equality against a non-`Week` value is `False` without an error,
two weeks are equal exactly when their starts are, and the hash key
(type together with start) agrees exactly on equal weeks. -/
theorem claim_C10 (a b : Week) (t : String) :
    Week.eqVal a (.other t) = false ∧
    (Week.eqVal a (.week b) = true ↔ a.start = b.start) ∧
    (Week.eqVal a (.week b) = true ↔ a = b) ∧
    (Week.hashKey a = Week.hashKey b ↔ a = b) := by
  obtain ⟨sa⟩ := a
  obtain ⟨sb⟩ := b
  unfold Week.eqVal Week.hashKey
  simp

/-- Witness for C1: adding 1 week to the week of 2021-09-27 moves the start
7 days; adding a 1-day duration fails. -/
theorem claim_C1_witness :
    Week.add ⟨toOrdinal 2021 9 27⟩ (.int 1) = .ok ⟨toOrdinal 2021 9 27 + 7 * 1⟩ ∧
      Week.add ⟨toOrdinal 2021 9 27⟩ (.dur 1) = .error ("must add only whole weeks") :=
  ⟨(claim_C1 ⟨toOrdinal 2021 9 27⟩ 1 1).1,
    ((claim_C1 ⟨toOrdinal 2021 9 27⟩ 1 1).2.2.1).mpr (by decide)⟩

/-- Witness for C4: Sunday plus 3 is in range and matches the formula;
Monday minus 3 is Monday plus -3. -/
theorem claim_C4_witness :
    wdAdd 7 3 = (7 + 3 - 1) % 7 + 1 ∧ 1 ≤ wdAdd 7 3 ∧ wdAdd 7 3 ≤ 7 ∧
      wdSub 1 3 = wdAdd 1 (-3) :=
  ⟨(claim_C4 7 3).1, (claim_C4 7 3).2.2.1, (claim_C4 7 3).2.2.2.1,
    (claim_C4 1 3).2.2.2.2.1⟩

/-- Witness for C6: for the week of 2021-09-27, the start is contained, the
end is not, and iteration yields 7 dates. -/
theorem claim_C6_witness :
    (Week.mk (toOrdinal 2021 9 27)).containsDate (Week.mk (toOrdinal 2021 9 27)).start ∧
      ¬ (Week.mk (toOrdinal 2021 9 27)).containsDate (Week.mk (toOrdinal 2021 9 27)).wend ∧
      (Week.mk (toOrdinal 2021 9 27)).dates.length = 7 :=
  ⟨(claim_C6 ⟨toOrdinal 2021 9 27⟩ 0).2.2.1,
    (claim_C6 ⟨toOrdinal 2021 9 27⟩ 0).2.2.2.1,
    (claim_C6 ⟨toOrdinal 2021 9 27⟩ 0).2.2.2.2.2.2.1⟩

/-- Witness for C8: comparing concrete weeks, and comparing a week against
a non-week value. -/
theorem claim_C8_witness :
    Week.gtVal ⟨5⟩ (.week ⟨3⟩) = .ok (decide ((3 : Int) < 5)) ∧
      Week.gtVal ⟨5⟩ (.other ("not a week")) = .error ("NotImplementedError") :=
  ⟨(claim_C8 ⟨5⟩ ⟨3⟩ ("not a week")).1, (claim_C8 ⟨5⟩ ⟨3⟩ ("not a week")).2.2.1⟩

/-- Witness for C10: equality of a concrete week against a non-week value
and against itself. -/
theorem claim_C10_witness :
    Week.eqVal ⟨7⟩ (.other ("not a week")) = false ∧
      (Week.eqVal ⟨7⟩ (.week ⟨7⟩) = true ↔ (⟨7⟩ : Week) = ⟨7⟩) :=
  ⟨(claim_C10 ⟨7⟩ ⟨7⟩ ("not a week")).1, (claim_C10 ⟨7⟩ ⟨7⟩ ("not a week")).2.2.1⟩

end Timeutils
